import Mathlib

/-!
Formal model of the pvpro repository (src/app/core.py): the timestamp
normalizer `to_beijing_timestamp`, the canonical namer `Pivor.rename`,
and the archival engine `Pivor.fit`, with theorems settling claims
C1 to C10 of the specification.

Python strings are modelled as `List Char` (one entry per code point,
matching Python indexing and slicing).  Standard-library machinery the
source calls (`datetime.strptime`, `datetime.fromtimestamp`,
`datetime.strftime`, `str.replace`, `str.split`, the two `re` patterns)
is modelled character by character from its documented behaviour:
`%Y` is zero padded to four digits, `\d` and `str.isdigit` are modelled
over ASCII digits, and the Asia/Shanghai zone is the fixed UTC+8 offset
of the specification glossary (exact for every epoch value reachable in
step 2, all of which are after 1992).  `dateutil.parser.parse`, the
step-3 general fallback and an external dependency, is a parameter
`fb : Fallback` of the model, constrained by explicit hypotheses where a
claim depends on its documented behaviour.  The filesystem is modelled
as the list of existing paths, with POSIX rename-overwrite semantics.
-/

set_option synthInstance.maxSize 1024

abbrev Str := List Char

def pyStr (s : String) : Str := s.data

def isDigitCh (c : Char) : Bool := 48 ≤ c.toNat && c.toNat ≤ 57

def dVal (c : Char) : Nat := c.toNat - 48

/-- Numeric value of a digit string (most significant digit first). -/
def valD (s : Str) : Nat := s.foldl (fun a c => 10 * a + dVal c) 0

/-- Decimal digits of `n`, fuel-driven so that it evaluates in the kernel. -/
def natDigitsF : Nat → Nat → Str
  | 0, _ => []
  | f + 1, n =>
    if n < 10 then [Char.ofNat (48 + n)]
    else natDigitsF f (n / 10) ++ [Char.ofNat (48 + n % 10)]

def natDigits (n : Nat) : Str := natDigitsF (n + 1) n

/-- `n` printed zero padded to (at least) `k` digits, as `strftime` pads
`%Y`/`%m`/`%d`/`%H`/`%M`/`%S` fields. -/
def padNat (k n : Nat) : Str := List.replicate (k - (natDigits n).length) '0' ++ natDigits n

/-! Proleptic Gregorian calendar, as used by Python `datetime`. -/

def isLeap (y : Nat) : Bool := y % 4 == 0 && (y % 100 != 0 || y % 400 == 0)

def daysInYear (y : Nat) : Nat := if isLeap y then 366 else 365

def daysInMonth (y m : Nat) : Nat :=
  if m = 2 then (if isLeap y then 29 else 28)
  else if m = 4 ∨ m = 6 ∨ m = 9 ∨ m = 11 then 30
  else 31

/-- A `datetime.datetime` value (second resolution; the source formats
with `%Y%m%d%H%M%S`, discarding microseconds). -/
structure DT where
  y : Nat
  mo : Nat
  d : Nat
  h : Nat
  mi : Nat
  s : Nat
deriving DecidableEq, Repr

/-- The exact validity condition enforced by the `datetime.datetime`
constructor (MINYEAR = 1, MAXYEAR = 9999). -/
def validDT : DT → Prop
  | ⟨y, mo, d, h, mi, s⟩ =>
    1 ≤ y ∧ y ≤ 9999 ∧ 1 ≤ mo ∧ mo ≤ 12 ∧ 1 ≤ d ∧ d ≤ daysInMonth y mo ∧
      h ≤ 23 ∧ mi ≤ 59 ∧ s ≤ 59

instance instDecValidDT : (t : DT) → Decidable (validDT t)
  | ⟨y, mo, d, h, mi, s⟩ =>
    inferInstanceAs (Decidable (1 ≤ y ∧ y ≤ 9999 ∧ 1 ≤ mo ∧ mo ≤ 12 ∧ 1 ≤ d ∧
      d ≤ daysInMonth y mo ∧ h ≤ 23 ∧ mi ≤ 59 ∧ s ≤ 59))

/-- `datetime.datetime(y, mo, d, h, mi, s)`: `some` on valid fields,
`none` where the constructor raises `ValueError`. -/
def mkValid (y mo d h mi s : Nat) : Option DT :=
  if validDT ⟨y, mo, d, h, mi, s⟩ then some ⟨y, mo, d, h, mi, s⟩ else none

def sumYearsF : Nat → Nat → Nat
  | 0, _ => 0
  | f + 1, a => daysInYear a + sumYearsF f (a + 1)

/-- Days in the years `a ≤ k < b`. -/
def sumYears (a b : Nat) : Nat := sumYearsF (b - a) a

def splitYearF : Nat → Nat → Nat → Nat × Nat
  | 0, y, d => (y, d)
  | f + 1, y, d => if daysInYear y ≤ d then splitYearF f (y + 1) (d - daysInYear y) else (y, d)

def sumMonthsF : Nat → Nat → Nat → Nat
  | 0, _, _ => 0
  | f + 1, y, a => daysInMonth y a + sumMonthsF f y (a + 1)

/-- Days of year `y` in the months `a ≤ k < b`. -/
def sumMonths (y a b : Nat) : Nat := sumMonthsF (b - a) y a

def splitMonthF : Nat → Nat → Nat → Nat → Nat × Nat
  | 0, _, m, d => (m, d)
  | f + 1, y, m, d =>
    if m < 12 ∧ daysInMonth y m ≤ d then splitMonthF f y (m + 1) (d - daysInMonth y m)
    else (m, d)

/-- Civil datetime from the count `T` of seconds since 0001-01-01 00:00:00. -/
def fromRdSeconds (T : Nat) : DT :=
  ⟨(splitYearF (T / 86400 + 1) 1 (T / 86400)).1,
   (splitMonthF 12 (splitYearF (T / 86400 + 1) 1 (T / 86400)).1 1
     (splitYearF (T / 86400 + 1) 1 (T / 86400)).2).1,
   (splitMonthF 12 (splitYearF (T / 86400 + 1) 1 (T / 86400)).1 1
     (splitYearF (T / 86400 + 1) 1 (T / 86400)).2).2 + 1,
   T % 86400 / 3600, T % 86400 % 3600 / 60, T % 86400 % 60⟩

/-- Seconds since 0001-01-01 00:00:00 of a civil datetime. -/
def rdSeconds : DT → Nat
  | ⟨y, mo, d, h, mi, s⟩ =>
    (sumYears 1 y + sumMonths y 1 mo + (d - 1)) * 86400 + h * 3600 + mi * 60 + s

/-- `rdSeconds ⟨9999, 12, 31, 23, 59, 59⟩`, the last representable
second (`datetime.max` at second resolution); see `rdMaxS_eq`. -/
def rdMaxS : Nat := 315537897599

def epoch1970S : Nat := sumYears 1 1970 * 86400

/-- `datetime.fromtimestamp(n, tz=Asia/Shanghai)` at second resolution:
Beijing civil time of epoch second `n` (fixed UTC+8). -/
def fromtimestampBeijing (n : Nat) : DT := fromRdSeconds (n + 28800 + epoch1970S)

/-- `dt.astimezone(Asia/Shanghai)` for an aware `dt` whose UTC offset is
`off` seconds: `none` models the `OverflowError` outside
`datetime.min .. datetime.max`. -/
def astimezoneBeijing (t : DT) (off : Int) : Option DT :=
  if 0 ≤ (rdSeconds t : Int) - off + 28800 ∧ (rdSeconds t : Int) - off + 28800 ≤ (rdMaxS : Int)
  then some (fromRdSeconds ((rdSeconds t : Int) - off + 28800).toNat)
  else none

/-- `dt.strftime("%Y%m%d%H%M%S")` (zero padded fields). -/
def formatTS : DT → Str
  | ⟨y, mo, d, h, mi, s⟩ =>
    padNat 4 y ++ padNat 2 mo ++ padNat 2 d ++ padNat 2 h ++ padNat 2 mi ++ padNat 2 s

/-- Field-wise decoding of a 14-digit `YYYYMMDDHHMMSS` string. -/
def decode14 (s : Str) : Option DT :=
  if s.length = 14 ∧ s.all isDigitCh then
    some ⟨valD (s.take 4), valD ((s.drop 4).take 2), valD ((s.drop 6).take 2),
          valD ((s.drop 8).take 2), valD ((s.drop 10).take 2), valD (s.drop 12)⟩
  else none

/-! The `strptime` models.  Each token follows the regular expression
CPython `_strptime.TimeRE` compiles for it; token alternatives are kept
in regex order and combined with list bind, which realises the leftmost
backtracking match; a literal space in the format matches `\s+`. -/

def tokLit (ch : Char) : Str → List Str
  | c :: r => if c = ch then [r] else []
  | [] => []

/-- `%Y`: `\d\d\d\d`. -/
def tokY : Str → List (Nat × Str)
  | a :: b :: c :: d :: r =>
    if isDigitCh a && isDigitCh b && isDigitCh c && isDigitCh d then
      [(dVal a * 1000 + dVal b * 100 + dVal c * 10 + dVal d, r)]
    else []
  | _ => []

/-- `%m`: `1[0-2]|0[1-9]|[1-9]`. -/
def tokM (s : Str) : List (Nat × Str) :=
  (match s with
   | '1' :: c :: r => if '0' ≤ c && c ≤ '2' then [(10 + dVal c, r)] else []
   | _ => []) ++
  (match s with
   | '0' :: c :: r => if '1' ≤ c && c ≤ '9' then [(dVal c, r)] else []
   | _ => []) ++
  (match s with
   | c :: r => if '1' ≤ c && c ≤ '9' then [(dVal c, r)] else []
   | _ => [])

/-- `%d`: `3[01]|[12]\d|0[1-9]|[1-9]`. -/
def tokD (s : Str) : List (Nat × Str) :=
  (match s with
   | '3' :: c :: r => if c = '0' || c = '1' then [(30 + dVal c, r)] else []
   | _ => []) ++
  (match s with
   | a :: c :: r => if (a = '1' || a = '2') && isDigitCh c then [(dVal a * 10 + dVal c, r)] else []
   | _ => []) ++
  (match s with
   | '0' :: c :: r => if '1' ≤ c && c ≤ '9' then [(dVal c, r)] else []
   | _ => []) ++
  (match s with
   | c :: r => if '1' ≤ c && c ≤ '9' then [(dVal c, r)] else []
   | _ => [])

/-- `%H`: `2[0-3]|[0-1]\d|\d`. -/
def tokH24 (s : Str) : List (Nat × Str) :=
  (match s with
   | '2' :: c :: r => if '0' ≤ c && c ≤ '3' then [(20 + dVal c, r)] else []
   | _ => []) ++
  (match s with
   | a :: c :: r => if (a = '0' || a = '1') && isDigitCh c then [(dVal a * 10 + dVal c, r)] else []
   | _ => []) ++
  (match s with
   | c :: r => if isDigitCh c then [(dVal c, r)] else []
   | _ => [])

/-- `%I`: `1[0-2]|0[1-9]|[1-9]` (same pattern as `%m`). -/
def tokI : Str → List (Nat × Str) := tokM

/-- `%M`: `[0-5]\d|\d`. -/
def tokMin (s : Str) : List (Nat × Str) :=
  (match s with
   | a :: c :: r => if '0' ≤ a && a ≤ '5' && isDigitCh c then [(dVal a * 10 + dVal c, r)] else []
   | _ => []) ++
  (match s with
   | c :: r => if isDigitCh c then [(dVal c, r)] else []
   | _ => [])

/-- `%S`: `6[0-1]|[0-5]\d|\d`. -/
def tokS (s : Str) : List (Nat × Str) :=
  (match s with
   | '6' :: c :: r => if c = '0' || c = '1' then [(60 + dVal c, r)] else []
   | _ => []) ++ tokMin s

def isWS (c : Char) : Bool :=
  c = ' ' || c = '\t' || c = '\n' || c = '\r' || c.toNat = 11 || c.toNat = 12

/-- A literal space in a `strptime` format: `\s+` (maximal munch; every
token that can follow it here starts with a non-space character). -/
def tokWS : Str → List Str
  | c :: r => if isWS c then [r.dropWhile isWS] else []
  | [] => []

/-- `%p` for the C locale: `AM|PM`, case-insensitive; `true` means PM. -/
def tokAMPM (s : Str) : List (Bool × Str) :=
  (match s with
   | a :: m :: r => if (a = 'A' || a = 'a') && (m = 'M' || m = 'm') then [(false, r)] else []
   | _ => []) ++
  (match s with
   | a :: m :: r => if (a = 'P' || a = 'p') && (m = 'M' || m = 'm') then [(true, r)] else []
   | _ => [])

def strptime12Matches (s : Str) : List (Nat × Nat × Nat × Nat × Nat × Nat × Bool) :=
  (tokY s).flatMap fun p1 =>
  (tokLit ':' p1.2).flatMap fun s2 =>
  (tokM s2).flatMap fun p2 =>
  (tokLit ':' p2.2).flatMap fun s3 =>
  (tokD s3).flatMap fun p3 =>
  (tokWS p3.2).flatMap fun s4 =>
  (tokI s4).flatMap fun p4 =>
  (tokLit ':' p4.2).flatMap fun s5 =>
  (tokMin s5).flatMap fun p5 =>
  (tokLit ':' p5.2).flatMap fun s6 =>
  (tokS s6).flatMap fun p6 =>
  (tokWS p6.2).flatMap fun s7 =>
  (tokAMPM s7).flatMap fun p7 =>
  if p7.2 = [] then [(p1.1, p2.1, p3.1, p4.1, p5.1, p6.1, p7.1)] else []

/-- `datetime.strptime(s, "%Y:%m:%d %I:%M:%S %p")`: `none` models the
`ValueError` on no match or invalid date. -/
def strptime12 (s : Str) : Option DT :=
  match (strptime12Matches s).head? with
  | some (y, mo, d, h, mi, sec, pm) =>
    let h2 := if pm then (if h ≠ 12 then h + 12 else h) else (if h = 12 then 0 else h)
    mkValid y mo d h2 mi sec
  | none => none

def strptime24Matches (s : Str) : List (Nat × Nat × Nat × Nat × Nat × Nat) :=
  (tokY s).flatMap fun p1 =>
  (tokLit ':' p1.2).flatMap fun s2 =>
  (tokM s2).flatMap fun p2 =>
  (tokLit ':' p2.2).flatMap fun s3 =>
  (tokD s3).flatMap fun p3 =>
  (tokWS p3.2).flatMap fun s4 =>
  (tokH24 s4).flatMap fun p4 =>
  (tokLit ':' p4.2).flatMap fun s5 =>
  (tokMin s5).flatMap fun p5 =>
  (tokLit ':' p5.2).flatMap fun s6 =>
  (tokS s6).flatMap fun p6 =>
  if p6.2 = [] then [(p1.1, p2.1, p3.1, p4.1, p5.1, p6.1)] else []

/-- `datetime.strptime(s, "%Y:%m:%d %H:%M:%S")`. -/
def strptime24 (s : Str) : Option DT :=
  match (strptime24Matches s).head? with
  | some (y, mo, d, h, mi, sec) => mkValid y mo d h mi sec
  | none => none

/-- `str.replace` for a two-character pattern (non-overlapping, left to
right, as Python replaces). -/
def replace2 (p1 p2 : Char) (rep : Str) : Str → Str
  | [] => []
  | [c] => [c]
  | c1 :: c2 :: r =>
    if c1 = p1 ∧ c2 = p2 then rep ++ replace2 p1 p2 rep r
    else c1 :: replace2 p1 p2 rep (c2 :: r)

def amStr : Str := pyStr "上午"

def pmStr : Str := pyStr "下午"

def leadsWith : Str → Str → Bool
  | [], _ => true
  | _ :: _, [] => false
  | p :: ps, c :: cs => p = c && leadsWith ps cs

/-- Python `pat in s` substring containment. -/
def hasSub (pat : Str) : Str → Bool
  | [] => pat.isEmpty
  | c :: r => leadsWith pat (c :: r) || hasSub pat r

/-- `time_str.replace("上午", " AM").replace("下午", " PM")`. -/
def cleanMarkers (s : Str) : Str :=
  replace2 '下' '午' (pyStr " PM") (replace2 '上' '午' (pyStr " AM") s)

/-- `re.match(r'(\d{4}):(\d{2}):(\d{2}) (\d{2}):(\d{2}):(\d{2})(上午|下午)', s)`:
anchored at the start, trailing characters allowed; the last component
is `true` for the 下午 (PM) marker. -/
def reTolerant (s : Str) : Option (Nat × Nat × Nat × Nat × Nat × Nat × Bool) :=
  match s with
  | y1 :: y2 :: y3 :: y4 :: c1 :: o1 :: o2 :: c2 :: e1 :: e2 :: sp :: h1 :: h2 :: c3 :: n1 ::
      n2 :: c4 :: s1 :: s2 :: mk1 :: mk2 :: _ =>
    if isDigitCh y1 && isDigitCh y2 && isDigitCh y3 && isDigitCh y4 && c1 = ':' &&
        isDigitCh o1 && isDigitCh o2 && c2 = ':' && isDigitCh e1 && isDigitCh e2 && sp = ' ' &&
        isDigitCh h1 && isDigitCh h2 && c3 = ':' && isDigitCh n1 && isDigitCh n2 && c4 = ':' &&
        isDigitCh s1 && isDigitCh s2 && (mk1 = '上' || mk1 = '下') && mk2 = '午' then
      some (dVal y1 * 1000 + dVal y2 * 100 + dVal y3 * 10 + dVal y4,
            dVal o1 * 10 + dVal o2, dVal e1 * 10 + dVal e2,
            dVal h1 * 10 + dVal h2, dVal n1 * 10 + dVal n2, dVal s1 * 10 + dVal s2,
            mk1 = '下')
    else none
  | _ => none

/-- The hour correction of the tolerant branch (source lines 54-62):
下午 and hour < 12 adds 12; 上午 and hour = 12 gives 0; otherwise the
hour is unchanged. -/
def fixHour (isPM : Bool) (h : Nat) : Nat :=
  if isPM then (if h < 12 then h + 12 else h)
  else (if h = 12 then 0 else h)

/-- The step-3 general parser `dateutil.parser.parse`, as a parameter:
`none` models a raised exception; `some (t, none)` a naive result;
`some (t, some off)` an aware result with UTC offset `off` seconds. -/
abbrev Fallback := Str → Option (DT × Option Int)

def ERRORstr : Str := pyStr "ERROR"

/-- The positional EXIF shape test of source line 29-31: length at least
19, `:` at positions 4 and 7, a space at position 10. -/
def posShape (s : Str) : Prop :=
  19 ≤ s.length ∧ s.get? 4 = some ':' ∧ s.get? 7 = some ':' ∧ s.get? 10 = some ' '

instance (s : Str) : Decidable (posShape s) := by
  unfold posShape
  exact inferInstance

/-- Step 3 of `to_beijing_timestamp` (source lines 92-96). -/
def generalFallback (fb : Fallback) (s : Str) : Except Unit Str :=
  match fb s with
  | none => Except.error ()
  | some (t, none) => Except.ok (formatTS t)
  | some (t, some off) =>
    match astimezoneBeijing t off with
    | some t2 => Except.ok (formatTS t2)
    | none => Except.error ()

/-- Steps 2-3 of `to_beijing_timestamp` (source lines 81-96); the
13-digit millisecond value keeps second resolution as `ms / 1000`. -/
def epochShape (fb : Fallback) (s : Str) : Except Unit Str :=
  if !s.isEmpty && s.all isDigitCh then
    if s.length = 10 then Except.ok (formatTS (fromtimestampBeijing (valD s)))
    else if s.length = 13 then Except.ok (formatTS (fromtimestampBeijing (valD s / 1000)))
    else generalFallback fb s
  else generalFallback fb s

/-- The body of `to_beijing_timestamp` inside its `try`; `Except.error`
is an exception reaching the outer handler. -/
def toBeijingBody (fb : Fallback) (s : Str) : Except Unit Str :=
  if posShape s then
    if hasSub amStr s || hasSub pmStr s then
      match strptime12 (cleanMarkers s) with
      | some t => Except.ok (formatTS t)
      | none =>
        match reTolerant s with
        | some (y, mo, d, h, mi, sec, pm) =>
          match mkValid y mo d (fixHour pm h) mi sec with
          | some t => Except.ok (formatTS t)
          | none => Except.error ()
        | none => epochShape fb s
    else
      match strptime24 s with
      | some t => Except.ok (formatTS t)
      | none => Except.error ()
  else epochShape fb s

/-- `to_beijing_timestamp` (source lines 19-99). -/
def to_beijing_timestamp (fb : Fallback) (s : Str) : Str :=
  match toBeijingBody fb s with
  | Except.ok r => r
  | Except.error _ => ERRORstr

/-! The canonical namer `Pivor.rename` and the metadata boundary. -/

structure PFile where
  dir : Str
  stem : Str
  suffix : Str
deriving DecidableEq, Repr

def PFile.name (f : PFile) : Str := f.stem ++ f.suffix

def PFile.path (f : PFile) : Str := f.dir ++ '/' :: f.name

/-- The external metadata boundary of `Pivor._extract_metadata`: the raw
tag reads (EXIF or ffprobe, `none` on absence or a swallowed read
failure) and the civil datetime of the file's filesystem mtime. -/
structure MetaOracle where
  rawTime : PFile → Option Str
  rawModel : PFile → Option Str
  mtimeDT : PFile → DT

def pyStrip (s : Str) : Str := ((s.dropWhile isWS).reverse.dropWhile isWS).reverse

def unknownStr : Str := pyStr "UNKNOWN"

/-- `meta["time"]` as produced by `_extract_metadata`: the raw tag when
present and non-empty, else the mtime formatted `%Y%m%d%H%M%S`
(source lines 361-364). -/
def extractTime (o : MetaOracle) (f : PFile) : Str :=
  match o.rawTime f with
  | some t => if t.isEmpty then formatTS (o.mtimeDT f) else t
  | none => formatTS (o.mtimeDT f)

/-- `meta["model"]`: the stripped tag when present, else `"UNKNOWN"`. -/
def extractModel (o : MetaOracle) (f : PFile) : Str :=
  match o.rawModel f with
  | some m => pyStrip m
  | none => unknownStr

/-- Python `str.split(sep)` for a one-character separator. -/
def pySplit (sep : Char) : Str → List Str
  | [] => [[]]
  | c :: r =>
    match pySplit sep r with
    | [] => [[]]
    | g :: gs => if c = sep then [] :: g :: gs else (c :: g) :: gs

/-- Python `str.replace(a, b)` for one-character arguments. -/
def pyReplaceChar (a b : Char) (s : Str) : Str := s.map fun c => if c = a then b else c

/-- `re.fullmatch(r"\d{14}", s)` (ASCII digits). -/
def is14Digits (s : Str) : Bool := s.length = 14 && s.all isDigitCh

/-- `meta["model"].replace(" ", "-")` (source line 321). -/
def modelToken (model : Str) : Str := pyReplaceChar ' ' '-' model

/-- `file.stem.replace("_", "-").replace(" ", "-")` (source line 322). -/
def stemToken (stem : Str) : Str := pyReplaceChar ' ' '-' (pyReplaceChar '_' '-' stem)

/-- `Pivor.rename` (source lines 313-324) with `mv=False`: a pure path
computation. -/
def rename (o : MetaOracle) (fb : Fallback) (f : PFile) : PFile :=
  if (pySplit '_' f.stem).length = 3 ∧ is14Digits (pySplit '_' f.stem).headI = true then f
  else
    ⟨f.dir,
     to_beijing_timestamp fb (extractTime o f) ++ '_' :: modelToken (extractModel o f) ++
       '_' :: stemToken f.stem,
     f.suffix⟩

/-! The archival engine `Pivor.fit` (source lines 244-287). -/

def pyLowerChar (c : Char) : Char := if 'A' ≤ c ∧ c ≤ 'Z' then Char.ofNat (c.toNat + 32) else c

def pyLower (s : Str) : Str := s.map pyLowerChar

def TARGET_IMAGES : List Str := [pyStr ".jpg", pyStr ".jpeg", pyStr ".png", pyStr ".cr2", pyStr ".arw"]

/-- `pathlib` `/` join. -/
def jp (a b : Str) : Str := a ++ '/' :: b

inductive Outcome
  | archived
  | duplicated
  | snapshotted
  | skipped
  | errored
deriving DecidableEq, Repr

/-- POSIX `Path.rename(src → dst)` over the set of existing paths:
`src` disappears, `dst` exists (silently replacing any previous file at
`dst`). -/
def fsMove (src dst : Str) (fs : List Str) : List Str :=
  dst :: fs.filter fun p => decide (p ≠ src ∧ p ≠ dst)

/-- `new_fp = self.archive / ts[:6] / pv / x.name` of source lines
249-250, with `pv = "p" if x.suffix.lower() in TARGET_IMAGES else "v"`. -/
def destPath (root : Str) (x : PFile) (ts : Str) : Str :=
  jp (jp (jp (jp root (pyStr "archive")) (ts.take 6))
    (if pyLower x.suffix ∈ TARGET_IMAGES then pyStr "p" else pyStr "v")) x.name

/-- `self.duplicates_dir / n`. -/
def dupPath (root : Str) (n : Str) : Str := jp (jp root (pyStr "duplicates")) n

/-- `self.snapshot_dir / n`. -/
def snapPath (root : Str) (n : Str) : Str := jp (jp root (pyStr "snapshot")) n

/-- One iteration of the `fit` batch loop (source lines 245-280) over
filesystem `fs`: the rename, the three-way unpack of the canonical stem
(whose failure is the `ValueError` caught as an error), the collision
check, the UNKNOWN-model snapshot branch, and the move.  `fails fp`
injects a per-file exception (the forced failure of the batch-isolation
property). -/
def processOne (root : Str) (handle_duplicate : Bool) (fails : PFile → Bool)
    (o : MetaOracle) (fb : Fallback) (fs : List Str) (fp : PFile) : List Str × Outcome :=
  if fails fp then (fs, Outcome.errored)
  else
    match pySplit '_' (rename o fb fp).stem with
    | [ts, model, _fn] =>
      if destPath root (rename o fb fp) ts ∈ fs then
        if handle_duplicate then
          (fsMove fp.path (dupPath root fp.name)
            (fsMove (destPath root (rename o fb fp) ts) (dupPath root (rename o fb fp).name) fs),
           Outcome.duplicated)
        else (fs, Outcome.skipped)
      else if model = unknownStr then
        (fsMove fp.path (snapPath root (rename o fb fp).name) fs, Outcome.snapshotted)
      else (fsMove fp.path (destPath root (rename o fb fp) ts) fs, Outcome.archived)
    | _ => (fs, Outcome.errored)

structure Counters where
  success : Nat
  duplicate : Nat
  snapshot : Nat
  error : Nat
deriving DecidableEq, Repr

/-- The per-outcome counter updates of the `fit` loop. -/
def stepCounters (c : Counters) : Outcome → Counters
  | Outcome.archived => { c with success := c.success + 1 }
  | Outcome.duplicated => { c with success := c.success + 1, duplicate := c.duplicate + 1 }
  | Outcome.snapshotted => { c with success := c.success + 1, snapshot := c.snapshot + 1 }
  | Outcome.skipped => c
  | Outcome.errored => { c with error := c.error + 1 }

def fitStep (root : Str) (hd : Bool) (fails : PFile → Bool) (o : MetaOracle) (fb : Fallback)
    (st : List Str × Counters) (fp : PFile) : List Str × Counters :=
  ((processOne root hd fails o fb st.1 fp).1,
   stepCounters st.2 (processOne root hd fails o fb st.1 fp).2)

/-- The `fit` batch loop: fold of `fitStep` over the files of the
working directory, in walk order. -/
def fit (root : Str) (hd : Bool) (fails : PFile → Bool) (o : MetaOracle) (fb : Fallback)
    (files : List PFile) (st : List Str × Counters) : List Str × Counters :=
  files.foldl (fitStep root hd fails o fb) st

/-- A fallback (general parser) that always raises. -/
def fbNone : Fallback := fun _ => none

/-- Every datetime an actual `dateutil.parser.parse` returns satisfies
the `datetime` constructor invariants. -/
def FbValid (fb : Fallback) : Prop := ∀ s t off, fb s = some (t, off) → validDT t

example : formatTS ⟨2024, 12, 13, 20, 28, 39⟩ = pyStr "20241213202839" := by decide

example : to_beijing_timestamp fbNone (pyStr "2024:12:13 20:28:39") = pyStr "20241213202839" := by
  decide

example : to_beijing_timestamp fbNone (pyStr "2018:05:25 21:23:28下午") = pyStr "20180525212328" := by
  decide

example : to_beijing_timestamp fbNone (pyStr "2018:03:04 10:35:51上午") = pyStr "20180304103551" := by
  decide

/-! Calendar lemmas: correctness of the year/month splitting used by
`fromRdSeconds`, and the inverse `rdSeconds`. -/

theorem daysInYear_ge365 (y : Nat) : 365 ≤ daysInYear y := by
  unfold daysInYear
  split <;> omega

theorem daysInMonth_le31 (y m : Nat) : daysInMonth y m ≤ 31 := by
  unfold daysInMonth
  split
  · split <;> omega
  · split <;> omega

theorem daysInMonth_pos (y m : Nat) : 1 ≤ daysInMonth y m := by
  unfold daysInMonth
  split
  · split <;> omega
  · split <;> omega

theorem sumYearsF_add (f g a : Nat) :
    sumYearsF (f + g) a = sumYearsF f a + sumYearsF g (a + f) := by
  induction f generalizing a with
  | zero => simp [sumYearsF]
  | succ f ih =>
    have h1 : f + 1 + g = (f + g) + 1 := by omega
    rw [h1]
    simp only [sumYearsF]
    rw [ih (a + 1)]
    have h2 : a + 1 + f = a + (f + 1) := by omega
    rw [h2, Nat.add_assoc]

theorem sumYears_step (a b : Nat) (h : a < b) :
    sumYears a b = daysInYear a + sumYears (a + 1) b := by
  unfold sumYears
  have h1 : b - a = (b - (a + 1)) + 1 := by omega
  rw [h1]
  simp only [sumYearsF]

theorem sumYears_split (a b c : Nat) (hab : a ≤ b) (hbc : b ≤ c) :
    sumYears a c = sumYears a b + sumYears b c := by
  unfold sumYears
  have h1 : c - a = (b - a) + (c - b) := by omega
  rw [h1, sumYearsF_add]
  have h2 : a + (b - a) = b := by omega
  rw [h2]

theorem splitYearF_spec : ∀ f y d, d ≤ f →
    sumYears y (splitYearF f y d).1 + (splitYearF f y d).2 = d ∧
    (splitYearF f y d).2 < daysInYear (splitYearF f y d).1 ∧
    y ≤ (splitYearF f y d).1 := by
  intro f
  induction f with
  | zero =>
    intro y d hd
    have hd0 : d = 0 := by omega
    subst hd0
    refine ⟨?_, ?_, Nat.le_refl y⟩
    · simp [splitYearF, sumYears, sumYearsF]
    · have := daysInYear_ge365 y
      simp [splitYearF]
      omega
  | succ f ih =>
    intro y d hd
    simp only [splitYearF]
    split
    · have hge := daysInYear_ge365 y
      have hrec : d - daysInYear y ≤ f := by omega
      obtain ⟨ih1, ih2, ih3⟩ := ih (y + 1) (d - daysInYear y) hrec
      refine ⟨?_, ih2, by omega⟩
      rw [sumYears_step y _ (by omega)]
      omega
    · refine ⟨?_, ?_, Nat.le_refl y⟩
      · simp [sumYears, sumYearsF]
      · exact (by omega : d < daysInYear y)

theorem sumMonthsF_add (y f g a : Nat) :
    sumMonthsF (f + g) y a = sumMonthsF f y a + sumMonthsF g y (a + f) := by
  induction f generalizing a with
  | zero => simp [sumMonthsF]
  | succ f ih =>
    have h1 : f + 1 + g = (f + g) + 1 := by omega
    rw [h1]
    simp only [sumMonthsF]
    rw [ih (a + 1)]
    have h2 : a + 1 + f = a + (f + 1) := by omega
    rw [h2, Nat.add_assoc]

theorem sumMonths_step (y a b : Nat) (h : a < b) :
    sumMonths y a b = daysInMonth y a + sumMonths y (a + 1) b := by
  unfold sumMonths
  have h1 : b - a = (b - (a + 1)) + 1 := by omega
  rw [h1]
  simp only [sumMonthsF]

theorem sumMonths_split (y a b c : Nat) (hab : a ≤ b) (hbc : b ≤ c) :
    sumMonths y a c = sumMonths y a b + sumMonths y b c := by
  unfold sumMonths
  have h1 : c - a = (b - a) + (c - b) := by omega
  rw [h1, sumMonthsF_add]
  have h2 : a + (b - a) = b := by omega
  rw [h2]

theorem splitMonthF_spec (y : Nat) : ∀ f m d, 1 ≤ m → m ≤ 12 → 12 - m ≤ f →
    sumMonths y m (splitMonthF f y m d).1 + (splitMonthF f y m d).2 = d ∧
    m ≤ (splitMonthF f y m d).1 ∧ (splitMonthF f y m d).1 ≤ 12 ∧
    ((splitMonthF f y m d).1 = 12 ∨
      (splitMonthF f y m d).2 < daysInMonth y (splitMonthF f y m d).1) := by
  intro f
  induction f with
  | zero =>
    intro m d hm1 hm2 hf
    have hm : m = 12 := by omega
    subst hm
    exact ⟨by simp [splitMonthF, sumMonths, sumMonthsF], Nat.le_refl _, by simp [splitMonthF],
      Or.inl rfl⟩
  | succ f ih =>
    intro m d hm1 hm2 hf
    simp only [splitMonthF]
    split
    · rename_i h
      have hrec := ih (m + 1) (d - daysInMonth y m) (by omega) (by omega) (by omega)
      obtain ⟨ih1, ih2, ih3, ih4⟩ := hrec
      refine ⟨?_, by omega, ih3, ih4⟩
      rw [sumMonths_step y m _ (by omega)]
      omega
    · rename_i h
      refine ⟨by simp [sumMonths, sumMonthsF], Nat.le_refl m, hm2, ?_⟩
      rcases Nat.lt_or_ge m 12 with h1 | h1
      · have h2 : ¬ daysInMonth y m ≤ d := fun hD => h ⟨h1, hD⟩
        exact Or.inr (by omega : d < daysInMonth y m)
      · exact Or.inl (by omega : m = 12)

set_option maxRecDepth 4000 in
theorem sumMonths_year (y : Nat) : sumMonths y 1 13 = daysInYear y := by
  rw [sumMonths_step y 1 13 (by omega), sumMonths_step y 2 13 (by omega),
    sumMonths_step y 3 13 (by omega), sumMonths_step y 4 13 (by omega),
    sumMonths_step y 5 13 (by omega), sumMonths_step y 6 13 (by omega),
    sumMonths_step y 7 13 (by omega), sumMonths_step y 8 13 (by omega),
    sumMonths_step y 9 13 (by omega), sumMonths_step y 10 13 (by omega),
    sumMonths_step y 11 13 (by omega), sumMonths_step y 12 13 (by omega)]
  have h13 : sumMonths y 13 13 = 0 := by simp [sumMonths, sumMonthsF]
  rw [h13]
  cases hl : isLeap y <;> simp [daysInMonth, daysInYear, hl]

/-- Balanced (logarithmic-depth) evaluator for `sumYears`, so that the
kernel can compute year sums without deep recursion. -/
def sumYearsBalF : Nat → Nat → Nat → Nat
  | 0, a, b => if b ≤ a then 0 else daysInYear a
  | f + 1, a, b =>
    if b ≤ a then 0
    else if b = a + 1 then daysInYear a
    else sumYearsBalF f a ((a + b) / 2) + sumYearsBalF f ((a + b) / 2) b

theorem sumYears_of_le (a b : Nat) (h : b ≤ a) : sumYears a b = 0 := by
  unfold sumYears
  have h1 : b - a = 0 := by omega
  rw [h1]
  rfl

theorem sumYears_single (a : Nat) : sumYears a (a + 1) = daysInYear a := by
  rw [sumYears_step a (a + 1) (by omega), sumYears_of_le (a + 1) (a + 1) (Nat.le_refl _)]
  omega

theorem sumYearsBalF_eq : ∀ f a b, b - a ≤ 2 ^ f → sumYearsBalF f a b = sumYears a b := by
  intro f
  induction f with
  | zero =>
    intro a b h
    simp only [pow_zero] at h
    simp only [sumYearsBalF]
    split
    · rename_i h1
      rw [sumYears_of_le a b h1]
    · rename_i h1
      have hb : b = a + 1 := by omega
      subst hb
      rw [sumYears_single a]
  | succ f ih =>
    intro a b h
    have h2 : 2 ^ (f + 1) = 2 * 2 ^ f := by rw [pow_succ]; ring
    simp only [sumYearsBalF]
    split
    · rename_i h1
      rw [sumYears_of_le a b h1]
    · split
      · rename_i h1 hb
        subst hb
        rw [sumYears_single a]
      · rename_i h1 hb
        have hm1 : a < (a + b) / 2 := by omega
        have hm2 : (a + b) / 2 < b := by omega
        rw [ih a ((a + b) / 2) (by omega), ih ((a + b) / 2) b (by omega)]
        rw [← sumYears_split a ((a + b) / 2) b (by omega) (by omega)]

theorem sumYears_1_10000 : sumYears 1 10000 = 3652059 := by
  have h := sumYearsBalF_eq 14 1 10000 (by norm_num)
  rw [← h]
  decide

theorem epoch1970S_eq : epoch1970S = 62135596800 := by
  have h := sumYearsBalF_eq 11 1 1970 (by norm_num)
  unfold epoch1970S
  rw [← h]
  decide

theorem rdMaxS_eq : rdMaxS = rdSeconds ⟨9999, 12, 31, 23, 59, 59⟩ := by
  have h := sumYearsBalF_eq 14 1 9999 (by norm_num)
  have hm : sumMonths 9999 1 12 = 334 := by decide
  simp only [rdSeconds]
  rw [← h, hm]
  decide

theorem fromRdSeconds_valid (T : Nat) (hT : T ≤ rdMaxS) : validDT (fromRdSeconds T) := by
  obtain ⟨hy1, hy2, hy3⟩ := splitYearF_spec (T / 86400 + 1) 1 (T / 86400) (by omega)
  obtain ⟨hm1, hm2, hm3, hm4⟩ :=
    splitMonthF_spec (splitYearF (T / 86400 + 1) 1 (T / 86400)).1 12 1
      (splitYearF (T / 86400 + 1) 1 (T / 86400)).2 (by omega) (by omega) (by omega)
  set yr := splitYearF (T / 86400 + 1) 1 (T / 86400) with hyr
  set mr := splitMonthF 12 yr.1 1 yr.2 with hmr
  have hdays : T / 86400 ≤ 3652058 := by
    have h1 : T / 86400 ≤ rdMaxS / 86400 := Nat.div_le_div_right hT
    have h2 : rdMaxS / 86400 = 3652058 := by norm_num [rdMaxS]
    omega
  have hy9999 : yr.1 ≤ 9999 := by
    by_contra hc
    have h10k : 10000 ≤ yr.1 := by omega
    have hsplit := sumYears_split 1 10000 yr.1 (by omega) h10k
    have h59 := sumYears_1_10000
    omega
  have hdayub : mr.2 + 1 ≤ daysInMonth yr.1 mr.1 := by
    rcases hm4 with hm4 | hm4
    · have hy13 : sumMonths yr.1 1 13 = daysInYear yr.1 := sumMonths_year yr.1
      have hsp : sumMonths yr.1 1 13 = sumMonths yr.1 1 12 + sumMonths yr.1 12 13 :=
        sumMonths_split yr.1 1 12 13 (by omega) (by omega)
      have hst : sumMonths yr.1 12 13 = daysInMonth yr.1 12 + sumMonths yr.1 13 13 :=
        sumMonths_step yr.1 12 13 (by omega)
      have h0 : sumMonths yr.1 13 13 = 0 := by simp [sumMonths, sumMonthsF]
      rw [hm4] at hm1 ⊢
      omega
    · omega
  have hsod : T % 86400 < 86400 := Nat.mod_lt _ (by omega)
  show 1 ≤ yr.1 ∧ yr.1 ≤ 9999 ∧ 1 ≤ mr.1 ∧ mr.1 ≤ 12 ∧ 1 ≤ mr.2 + 1 ∧
    mr.2 + 1 ≤ daysInMonth yr.1 mr.1 ∧ T % 86400 / 3600 ≤ 23 ∧ T % 86400 % 3600 / 60 ≤ 59 ∧
    T % 86400 % 60 ≤ 59
  exact ⟨by omega, hy9999, by omega, hm3, by omega, hdayub, by omega, by omega, by omega⟩

theorem rdSeconds_fromRdSeconds (T : Nat) : rdSeconds (fromRdSeconds T) = T := by
  obtain ⟨hy1, hy2, hy3⟩ := splitYearF_spec (T / 86400 + 1) 1 (T / 86400) (by omega)
  obtain ⟨hm1, hm2, hm3, hm4⟩ :=
    splitMonthF_spec (splitYearF (T / 86400 + 1) 1 (T / 86400)).1 12 1
      (splitYearF (T / 86400 + 1) 1 (T / 86400)).2 (by omega) (by omega) (by omega)
  set yr := splitYearF (T / 86400 + 1) 1 (T / 86400) with hyr
  set mr := splitMonthF 12 yr.1 1 yr.2 with hmr
  show (sumYears 1 yr.1 + sumMonths yr.1 1 mr.1 + (mr.2 + 1 - 1)) * 86400 +
    T % 86400 / 3600 * 3600 + T % 86400 % 3600 / 60 * 60 + T % 86400 % 60 = T
  have e1 : 86400 * (T / 86400) + T % 86400 = T := Nat.div_add_mod T 86400
  have e2 : 3600 * (T % 86400 / 3600) + T % 86400 % 3600 = T % 86400 := Nat.div_add_mod _ _
  have e3 : 60 * (T % 86400 % 3600 / 60) + T % 86400 % 3600 % 60 = T % 86400 % 3600 :=
    Nat.div_add_mod _ _
  have e4 : T % 86400 % 3600 % 60 = T % 86400 % 60 := Nat.mod_mod_of_dvd _ (by norm_num)
  omega

theorem fromtimestampBeijing_valid (n : Nat) (hn : n ≤ 9999999999) :
    validDT (fromtimestampBeijing n) := by
  unfold fromtimestampBeijing
  apply fromRdSeconds_valid
  have he := epoch1970S_eq
  unfold rdMaxS
  omega

theorem rdSeconds_fromtimestampBeijing (n : Nat) :
    rdSeconds (fromtimestampBeijing n) = n + 28800 + epoch1970S :=
  rdSeconds_fromRdSeconds _

/-! Digit-string lemmas: printing and reading of zero-padded fields. -/

theorem valD_append_one (l : Str) (c : Char) : valD (l ++ [c]) = 10 * valD l + dVal c := by
  simp [valD, List.foldl_append]

theorem digit_char_spec (n : Nat) (hn : n < 10) :
    isDigitCh (Char.ofNat (48 + n)) = true ∧ dVal (Char.ofNat (48 + n)) = n := by
  interval_cases n <;> exact ⟨by decide, by decide⟩

theorem natDigitsF_spec : ∀ f n, n < f →
    1 ≤ (natDigitsF f n).length ∧
    (∀ c ∈ natDigitsF f n, isDigitCh c = true) ∧
    valD (natDigitsF f n) = n := by
  intro f
  induction f with
  | zero => intro n h; omega
  | succ f ih =>
    intro n hn
    simp only [natDigitsF]
    split
    · rename_i h
      obtain ⟨h1, h2⟩ := digit_char_spec n h
      refine ⟨by simp, ?_, ?_⟩
      · intro c hc
        simp only [List.mem_singleton] at hc
        subst hc
        exact h1
      · simpa [valD] using h2
    · rename_i h
      have hd : n / 10 < f := by
        have h1 := Nat.div_lt_self (show 0 < n by omega) (show 1 < 10 by omega)
        omega
      obtain ⟨ih1, ih2, ih3⟩ := ih (n / 10) hd
      obtain ⟨g1, g2⟩ := digit_char_spec (n % 10) (Nat.mod_lt _ (by omega))
      refine ⟨by simp, ?_, ?_⟩
      · intro c hc
        rw [List.mem_append] at hc
        rcases hc with hc | hc
        · exact ih2 c hc
        · simp only [List.mem_singleton] at hc
          subst hc
          exact g1
      · rw [valD_append_one, ih3, g2]
        omega

theorem natDigitsF_len : ∀ f n k, n < f → 1 ≤ k → n < 10 ^ k → (natDigitsF f n).length ≤ k := by
  intro f
  induction f with
  | zero => intro n k h _ _; omega
  | succ f ih =>
    intro n k hn hk hnk
    simp only [natDigitsF]
    split
    · simpa using hk
    · rename_i h
      have hd : n / 10 < f := by
        have h1 := Nat.div_lt_self (show 0 < n by omega) (show 1 < 10 by omega)
        omega
      have hk2 : 2 ≤ k := by
        by_contra hc
        have hk1 : k = 1 := by omega
        subst hk1
        simp only [pow_one] at hnk
        omega
      have hpow : 10 ^ (k - 1) * 10 = 10 ^ k := by
        rw [← pow_succ]
        congr 1
        omega
      have hdk : n / 10 < 10 ^ (k - 1) := by
        rw [Nat.div_lt_iff_lt_mul (show 0 < 10 by omega), hpow]
        exact hnk
      have hlen := ih (n / 10) (k - 1) hd (by omega) hdk
      simp only [List.length_append, List.length_singleton]
      omega

theorem natDigits_spec (n : Nat) :
    1 ≤ (natDigits n).length ∧ (∀ c ∈ natDigits n, isDigitCh c = true) ∧
      valD (natDigits n) = n :=
  natDigitsF_spec (n + 1) n (by omega)

theorem natDigits_len (n k : Nat) (hk : 1 ≤ k) (hnk : n < 10 ^ k) : (natDigits n).length ≤ k :=
  natDigitsF_len (n + 1) n k (by omega) hk hnk

theorem padNat_len (k n : Nat) (hk : 1 ≤ k) (hn : n < 10 ^ k) : (padNat k n).length = k := by
  unfold padNat
  have h1 := natDigits_len n k hk hn
  have h2 := (natDigits_spec n).1
  rw [List.length_append, List.length_replicate]
  omega

theorem padNat_digits (k n : Nat) : ∀ c ∈ padNat k n, isDigitCh c = true := by
  intro c hc
  unfold padNat at hc
  rw [List.mem_append] at hc
  rcases hc with hc | hc
  · have h0 := List.eq_of_mem_replicate hc
    subst h0
    decide
  · exact (natDigits_spec n).2.1 c hc

theorem valD_cons0 (l : Str) : valD ('0' :: l) = valD l := by
  have h : dVal '0' = 0 := by decide
  simp [valD, List.foldl_cons, h]

theorem valD_padNat (k n : Nat) : valD (padNat k n) = n := by
  unfold padNat
  have hz : ∀ j (l : Str), valD (List.replicate j '0' ++ l) = valD l := by
    intro j
    induction j with
    | zero => intro l; simp
    | succ j ih =>
      intro l
      rw [List.replicate_succ, List.cons_append, valD_cons0]
      exact ih l
  rw [hz]
  exact (natDigits_spec n).2.2

theorem valD_aux_lt : ∀ (s : Str) (a : Nat), (∀ c ∈ s, isDigitCh c = true) →
    List.foldl (fun x c => 10 * x + dVal c) a s < (a + 1) * 10 ^ s.length := by
  intro s
  induction s with
  | nil => intro a _; simp
  | cons c r ih =>
    intro a hall
    have hc : isDigitCh c = true := hall c (by simp)
    have hd : dVal c ≤ 9 := by
      simp only [isDigitCh, Bool.and_eq_true, decide_eq_true_eq] at hc
      unfold dVal
      omega
    have hr := ih (10 * a + dVal c) (fun x hx => hall x (by simp [hx]))
    simp only [List.foldl_cons, List.length_cons]
    calc List.foldl (fun x c => 10 * x + dVal c) (10 * a + dVal c) r
        < (10 * a + dVal c + 1) * 10 ^ r.length := hr
    _ ≤ ((a + 1) * 10) * 10 ^ r.length := Nat.mul_le_mul_right _ (by omega)
    _ = (a + 1) * 10 ^ (r.length + 1) := by ring

theorem valD_lt (s : Str) (h : ∀ c ∈ s, isDigitCh c = true) : valD s < 10 ^ s.length := by
  have h1 := valD_aux_lt s 0 h
  simpa [valD] using h1

/-! Properties of the `%Y%m%d%H%M%S` format. -/

theorem formatTS_len (t : DT) (h : validDT t) : (formatTS t).length = 14 := by
  obtain ⟨y, mo, d, h24, mi, s⟩ := t
  simp only [validDT] at h
  obtain ⟨h1, h2, h3, h4, h5, h6, h7, h8, h9⟩ := h
  have hd31 : d ≤ 31 := le_trans h6 (daysInMonth_le31 y mo)
  simp only [formatTS, List.length_append]
  rw [padNat_len 4 y (by omega) (by norm_num; omega),
    padNat_len 2 mo (by omega) (by norm_num; omega),
    padNat_len 2 d (by omega) (by norm_num; omega),
    padNat_len 2 h24 (by omega) (by norm_num; omega),
    padNat_len 2 mi (by omega) (by norm_num; omega),
    padNat_len 2 s (by omega) (by norm_num; omega)]

theorem formatTS_digits (t : DT) : (formatTS t).all isDigitCh = true := by
  obtain ⟨y, mo, d, h24, mi, s⟩ := t
  rw [List.all_eq_true]
  intro c hc
  simp only [formatTS, List.mem_append] at hc
  rcases hc with ((((hc | hc) | hc) | hc) | hc) | hc <;> exact padNat_digits _ _ c hc

theorem ERRORstr_len : ERRORstr.length = 5 := by decide

theorem formatTS_ne_error (t : DT) (h : validDT t) : formatTS t ≠ ERRORstr := by
  intro he
  have h14 := formatTS_len t h
  rw [he, ERRORstr_len] at h14
  omega

theorem decode14_formatTS (t : DT) (h : validDT t) : decode14 (formatTS t) = some t := by
  have hlen := formatTS_len t h
  have hdig := formatTS_digits t
  obtain ⟨y, mo, d, h24, mi, s⟩ := t
  simp only [validDT] at h
  obtain ⟨h1, h2, h3, h4, h5, h6, h7, h8, h9⟩ := h
  have hd31 : d ≤ 31 := le_trans h6 (daysInMonth_le31 y mo)
  have l1 : (padNat 4 y).length = 4 := padNat_len 4 y (by omega) (by norm_num; omega)
  have l2 : (padNat 2 mo).length = 2 := padNat_len 2 mo (by omega) (by norm_num; omega)
  have l3 : (padNat 2 d).length = 2 := padNat_len 2 d (by omega) (by norm_num; omega)
  have l4 : (padNat 2 h24).length = 2 := padNat_len 2 h24 (by omega) (by norm_num; omega)
  have l5 : (padNat 2 mi).length = 2 := padNat_len 2 mi (by omega) (by norm_num; omega)
  have e1 : formatTS ⟨y, mo, d, h24, mi, s⟩ = padNat 4 y ++
      (padNat 2 mo ++ (padNat 2 d ++ (padNat 2 h24 ++ (padNat 2 mi ++ padNat 2 s)))) := by
    simp [formatTS, List.append_assoc]
  have e2 : formatTS ⟨y, mo, d, h24, mi, s⟩ = (padNat 4 y ++ padNat 2 mo) ++
      (padNat 2 d ++ (padNat 2 h24 ++ (padNat 2 mi ++ padNat 2 s))) := by
    simp [formatTS, List.append_assoc]
  have e3 : formatTS ⟨y, mo, d, h24, mi, s⟩ = ((padNat 4 y ++ padNat 2 mo) ++ padNat 2 d) ++
      (padNat 2 h24 ++ (padNat 2 mi ++ padNat 2 s)) := by
    simp [formatTS, List.append_assoc]
  have e4 : formatTS ⟨y, mo, d, h24, mi, s⟩ =
      (((padNat 4 y ++ padNat 2 mo) ++ padNat 2 d) ++ padNat 2 h24) ++
      (padNat 2 mi ++ padNat 2 s) := by
    simp [formatTS, List.append_assoc]
  have e5 : formatTS ⟨y, mo, d, h24, mi, s⟩ =
      ((((padNat 4 y ++ padNat 2 mo) ++ padNat 2 d) ++ padNat 2 h24) ++ padNat 2 mi) ++
      padNat 2 s := by
    simp [formatTS, List.append_assoc]
  have c1 : (formatTS ⟨y, mo, d, h24, mi, s⟩).take 4 = padNat 4 y := by
    rw [e1]
    exact List.take_left' l1
  have c2 : ((formatTS ⟨y, mo, d, h24, mi, s⟩).drop 4).take 2 = padNat 2 mo := by
    rw [e1, List.drop_left' l1]
    rw [show padNat 2 mo ++ (padNat 2 d ++ (padNat 2 h24 ++ (padNat 2 mi ++ padNat 2 s))) =
      padNat 2 mo ++ (padNat 2 d ++ (padNat 2 h24 ++ (padNat 2 mi ++ padNat 2 s))) from rfl]
    exact List.take_left' l2
  have c3 : ((formatTS ⟨y, mo, d, h24, mi, s⟩).drop 6).take 2 = padNat 2 d := by
    rw [e2, List.drop_left' (by rw [List.length_append, l1, l2])]
    exact List.take_left' l3
  have c4 : ((formatTS ⟨y, mo, d, h24, mi, s⟩).drop 8).take 2 = padNat 2 h24 := by
    rw [e3, List.drop_left' (by rw [List.length_append, List.length_append, l1, l2, l3])]
    exact List.take_left' l4
  have c5 : ((formatTS ⟨y, mo, d, h24, mi, s⟩).drop 10).take 2 = padNat 2 mi := by
    rw [e4, List.drop_left' (by
      rw [List.length_append, List.length_append, List.length_append, l1, l2, l3, l4])]
    exact List.take_left' l5
  have c6 : (formatTS ⟨y, mo, d, h24, mi, s⟩).drop 12 = padNat 2 s := by
    rw [e5, List.drop_left' (by
      rw [List.length_append, List.length_append, List.length_append, List.length_append,
        l1, l2, l3, l4, l5])]
  unfold decode14
  rw [if_pos ⟨hlen, hdig⟩, c1, c2, c3, c4, c5, c6]
  simp only [valD_padNat]

/-! Validity of every datetime produced inside the normalizer. -/

theorem mkValid_some {y mo d h mi s : Nat} {t : DT}
    (hm : mkValid y mo d h mi s = some t) : validDT t := by
  unfold mkValid at hm
  split at hm
  · rename_i hv
    injection hm with h2
    subst h2
    exact hv
  · exact Option.noConfusion hm

theorem strptime12_valid {s : Str} {t : DT} (h : strptime12 s = some t) : validDT t := by
  unfold strptime12 at h
  split at h
  · exact mkValid_some h
  · exact Option.noConfusion h

theorem strptime24_valid {s : Str} {t : DT} (h : strptime24 s = some t) : validDT t := by
  unfold strptime24 at h
  split at h
  · exact mkValid_some h
  · exact Option.noConfusion h

theorem astimezoneBeijing_valid {t t2 : DT} {off : Int}
    (h : astimezoneBeijing t off = some t2) : validDT t2 := by
  unfold astimezoneBeijing at h
  split at h
  · rename_i hg
    injection h with h2
    subst h2
    apply fromRdSeconds_valid
    omega
  · exact Option.noConfusion h

/-! Every successful return of the normalizer body formats a valid
datetime. -/

theorem generalFallback_ok {fb : Fallback} (hfb : FbValid fb) {s r : Str}
    (h : generalFallback fb s = Except.ok r) : ∃ t, validDT t ∧ r = formatTS t := by
  unfold generalFallback at h
  split at h
  · exact Except.noConfusion h
  · rename_i t heq
    injection h with h2
    exact ⟨t, hfb s t none heq, h2.symm⟩
  · rename_i t off heq
    split at h
    · rename_i t2 heq2
      injection h with h2
      exact ⟨t2, astimezoneBeijing_valid heq2, h2.symm⟩
    · exact Except.noConfusion h

theorem epochShape_ok {fb : Fallback} (hfb : FbValid fb) {s r : Str}
    (h : epochShape fb s = Except.ok r) : ∃ t, validDT t ∧ r = formatTS t := by
  unfold epochShape at h
  split at h
  · rename_i hdig
    have hall : ∀ c ∈ s, isDigitCh c = true := by
      rw [Bool.and_eq_true] at hdig
      exact List.all_eq_true.mp hdig.2
    split at h
    · rename_i h10
      injection h with h2
      refine ⟨fromtimestampBeijing (valD s), ?_, h2.symm⟩
      apply fromtimestampBeijing_valid
      have hv := valD_lt s hall
      rw [h10] at hv
      norm_num at hv
      omega
    · split at h
      · rename_i h10 h13
        injection h with h2
        refine ⟨fromtimestampBeijing (valD s / 1000), ?_, h2.symm⟩
        apply fromtimestampBeijing_valid
        have hv := valD_lt s hall
        rw [h13] at hv
        norm_num at hv
        omega
      · exact generalFallback_ok hfb h
  · exact generalFallback_ok hfb h

theorem toBeijingBody_ok {fb : Fallback} (hfb : FbValid fb) {s r : Str}
    (h : toBeijingBody fb s = Except.ok r) : ∃ t, validDT t ∧ r = formatTS t := by
  unfold toBeijingBody at h
  split at h
  · split at h
    · split at h
      · rename_i t heq
        injection h with h2
        exact ⟨t, strptime12_valid heq, h2.symm⟩
      · split at h
        · rename_i y mo d hh mi sec pm heq
          split at h
          · rename_i t heq2
            injection h with h2
            exact ⟨t, mkValid_some heq2, h2.symm⟩
          · exact Except.noConfusion h
        · exact epochShape_ok hfb h
    · split at h
      · rename_i t heq
        injection h with h2
        exact ⟨t, strptime24_valid heq, h2.symm⟩
      · exact Except.noConfusion h
  · exact epochShape_ok hfb h

/-! Claim theorems. -/

/-- C6: for every input string, `to_beijing_timestamp` never raises (the
outer handler turns every internal failure into the sentinel) and its
value is either exactly `"ERROR"` or a 14-digit string — under the
hypothesis that the external general parser only returns datetimes
satisfying the `datetime` constructor invariants. -/
theorem C6_normalize_total (fb : Fallback) (hfb : FbValid fb) (s : Str) :
    to_beijing_timestamp fb s = ERRORstr ∨
      ((to_beijing_timestamp fb s).length = 14 ∧
        (to_beijing_timestamp fb s).all isDigitCh = true) := by
  unfold to_beijing_timestamp
  split
  · rename_i r heq
    right
    obtain ⟨t, hv, hr⟩ := toBeijingBody_ok hfb heq
    subst hr
    exact ⟨formatTS_len t hv, formatTS_digits t⟩
  · exact Or.inl rfl

/-- Witness for C6 at the always-raising fallback and a garbage input. -/
theorem C6_normalize_total_witness :
    FbValid fbNone ∧
      (to_beijing_timestamp fbNone (pyStr "garbage") = ERRORstr ∨
        ((to_beijing_timestamp fbNone (pyStr "garbage")).length = 14 ∧
          (to_beijing_timestamp fbNone (pyStr "garbage")).all isDigitCh = true)) :=
  ⟨fun _ _ _ h => Option.noConfusion h,
   C6_normalize_total fbNone (fun _ _ _ h => Option.noConfusion h) (pyStr "garbage")⟩

theorem digits_not_posShape {s : Str} (hall : s.all isDigitCh = true) : ¬ posShape s := by
  intro hp
  have hmem : ':' ∈ s := List.get?_mem hp.2.1
  have hd := List.all_eq_true.mp hall ':' hmem
  exact absurd hd (by decide)

/-- C9: a 10-digit all-digit string is read as whole epoch seconds and a
13-digit one as whole epoch milliseconds (seconds `ms / 1000`), each
formatted as the 14-digit Beijing civil time whose decoding converts
back to exactly the same epoch second; all-digit strings of any other
length fall through to the step-3 general parser. -/
theorem C9_epoch_shapes :
    (∀ (fb : Fallback) (s : Str), s.all isDigitCh = true → s.length = 10 →
      to_beijing_timestamp fb s = formatTS (fromtimestampBeijing (valD s)) ∧
      ∃ t, decode14 (to_beijing_timestamp fb s) = some t ∧
        rdSeconds t = valD s + 28800 + epoch1970S) ∧
    (∀ (fb : Fallback) (s : Str), s.all isDigitCh = true → s.length = 13 →
      to_beijing_timestamp fb s = formatTS (fromtimestampBeijing (valD s / 1000)) ∧
      ∃ t, decode14 (to_beijing_timestamp fb s) = some t ∧
        rdSeconds t = valD s / 1000 + 28800 + epoch1970S) ∧
    (∀ (fb : Fallback) (s : Str), s.all isDigitCh = true → s.length ≠ 10 → s.length ≠ 13 →
      toBeijingBody fb s = generalFallback fb s) := by
  refine ⟨?_, ?_, ?_⟩
  · intro fb s hall h10
    have hne : s.isEmpty = false := by
      cases s
      · simp at h10
      · rfl
    have hnp : ¬ posShape s := digits_not_posShape hall
    have hb : toBeijingBody fb s = Except.ok (formatTS (fromtimestampBeijing (valD s))) := by
      unfold toBeijingBody
      rw [if_neg hnp]
      unfold epochShape
      rw [if_pos (by rw [hne, hall]; rfl), if_pos h10]
    have hmain : to_beijing_timestamp fb s = formatTS (fromtimestampBeijing (valD s)) := by
      unfold to_beijing_timestamp
      rw [hb]
    refine ⟨hmain, ?_⟩
    have hval : valD s ≤ 9999999999 := by
      have hv := valD_lt s (List.all_eq_true.mp hall)
      rw [h10] at hv
      norm_num at hv
      omega
    have hvdt := fromtimestampBeijing_valid (valD s) hval
    refine ⟨fromtimestampBeijing (valD s), ?_, rdSeconds_fromtimestampBeijing (valD s)⟩
    rw [hmain]
    exact decode14_formatTS _ hvdt
  · intro fb s hall h13
    have hne : s.isEmpty = false := by
      cases s
      · simp at h13
      · rfl
    have hnp : ¬ posShape s := digits_not_posShape hall
    have hn10 : ¬ s.length = 10 := by rw [h13]; omega
    have hb : toBeijingBody fb s =
        Except.ok (formatTS (fromtimestampBeijing (valD s / 1000))) := by
      unfold toBeijingBody
      rw [if_neg hnp]
      unfold epochShape
      rw [if_pos (by rw [hne, hall]; rfl), if_neg hn10, if_pos h13]
    have hmain : to_beijing_timestamp fb s = formatTS (fromtimestampBeijing (valD s / 1000)) := by
      unfold to_beijing_timestamp
      rw [hb]
    refine ⟨hmain, ?_⟩
    have hval : valD s / 1000 ≤ 9999999999 := by
      have hv := valD_lt s (List.all_eq_true.mp hall)
      rw [h13] at hv
      norm_num at hv
      omega
    have hvdt := fromtimestampBeijing_valid (valD s / 1000) hval
    refine ⟨fromtimestampBeijing (valD s / 1000), ?_,
      rdSeconds_fromtimestampBeijing (valD s / 1000)⟩
    rw [hmain]
    exact decode14_formatTS _ hvdt
  · intro fb s hall h10 h13
    have hnp : ¬ posShape s := digits_not_posShape hall
    unfold toBeijingBody
    rw [if_neg hnp]
    unfold epochShape
    cases hdig : (!s.isEmpty && s.all isDigitCh) with
    | false => rw [if_neg (by simp)]
    | true => rw [if_pos rfl, if_neg h10, if_neg h13]

/-- Witness for C9 at the 10-digit input "1600000000". -/
theorem C9_epoch_shapes_witness :
    (pyStr "1600000000").all isDigitCh = true ∧ (pyStr "1600000000").length = 10 ∧
      (to_beijing_timestamp fbNone (pyStr "1600000000") =
        formatTS (fromtimestampBeijing (valD (pyStr "1600000000"))) ∧
      ∃ t, decode14 (to_beijing_timestamp fbNone (pyStr "1600000000")) = some t ∧
        rdSeconds t = valD (pyStr "1600000000") + 28800 + epoch1970S) :=
  ⟨by decide, by decide, C9_epoch_shapes.1 fbNone (pyStr "1600000000") (by decide) (by decide)⟩

/-- C4 counterexample: `"2018:99:25 21:23:28下午"` satisfies the
positional EXIF shape (length ≥ 19, `:` at 4 and 7, space at 10) and
carries the afternoon marker, yet the tolerant branch raises inside
`datetime` (month 99) and normalize returns the `"ERROR"` sentinel — so
the tolerant reconstruction does fail on a positional-shape string. -/
theorem C4_cex :
    posShape (pyStr "2018:99:25 21:23:28下午") ∧
    hasSub pmStr (pyStr "2018:99:25 21:23:28下午") = true ∧
    to_beijing_timestamp fbNone (pyStr "2018:99:25 21:23:28下午") = ERRORstr :=
  ⟨by decide, by decide, by decide⟩

/-- C4 amended: the tolerant reconstruction never fails on an input that
matches the anchored tolerant regular expression (four-digit year,
two-digit fields, marker right after the seconds) *and* whose corrected
fields form a constructor-valid datetime: for every such string
normalize returns a 14-digit timestamp, never `"ERROR"` — regardless of
whether the direct 12-hour parse succeeded first. -/
theorem C4_amended (fb : Fallback) (s : Str) (y mo d h mi sec : Nat) (pm : Bool)
    (hshape : posShape s)
    (hmk : hasSub amStr s = true ∨ hasSub pmStr s = true)
    (hre : reTolerant s = some (y, mo, d, h, mi, sec, pm))
    (hv : validDT ⟨y, mo, d, fixHour pm h, mi, sec⟩) :
    (to_beijing_timestamp fb s).length = 14 ∧ to_beijing_timestamp fb s ≠ ERRORstr := by
  have hmk2 : (hasSub amStr s || hasSub pmStr s) = true := by
    rcases hmk with h1 | h1 <;> simp [h1]
  cases hstr : strptime12 (cleanMarkers s) with
  | some t =>
    have hvt := strptime12_valid hstr
    have hb : to_beijing_timestamp fb s = formatTS t := by
      unfold to_beijing_timestamp toBeijingBody
      rw [if_pos hshape, if_pos hmk2]
      simp only [hstr]
    rw [hb]
    exact ⟨formatTS_len t hvt, formatTS_ne_error t hvt⟩
  | none =>
    have hmv : mkValid y mo d (fixHour pm h) mi sec =
        some ⟨y, mo, d, fixHour pm h, mi, sec⟩ := by
      unfold mkValid
      rw [if_pos hv]
    have hb : to_beijing_timestamp fb s = formatTS ⟨y, mo, d, fixHour pm h, mi, sec⟩ := by
      unfold to_beijing_timestamp toBeijingBody
      rw [if_pos hshape, if_pos hmk2]
      simp only [hstr, hre, hmv]
    rw [hb]
    exact ⟨formatTS_len _ hv, formatTS_ne_error _ hv⟩

/-- Witness for C4 (amended) at `"2018:05:25 21:23:28下午"`. -/
theorem C4_amended_witness :
    (posShape (pyStr "2018:05:25 21:23:28下午") ∧
      hasSub pmStr (pyStr "2018:05:25 21:23:28下午") = true ∧
      reTolerant (pyStr "2018:05:25 21:23:28下午") = some (2018, 5, 25, 21, 23, 28, true) ∧
      validDT ⟨2018, 5, 25, fixHour true 21, 23, 28⟩) ∧
    ((to_beijing_timestamp fbNone (pyStr "2018:05:25 21:23:28下午")).length = 14 ∧
      to_beijing_timestamp fbNone (pyStr "2018:05:25 21:23:28下午") ≠ ERRORstr) :=
  ⟨⟨by decide, by decide, by decide, by decide⟩,
   C4_amended fbNone (pyStr "2018:05:25 21:23:28下午") 2018 5 25 21 23 28 true (by decide)
     (Or.inr (by decide)) (by decide) (by decide)⟩

/-- The hour-correction rule exactly as the specification words it:
afternoon marker and hour < 12 adds 12; afternoon marker and hour ≥ 12
leaves the hour; morning marker and hour = 12 gives 0; otherwise the
hour is unchanged. -/
def specHourRule (isPM : Bool) (h : Nat) : Nat :=
  if isPM ∧ h < 12 then h + 12
  else if isPM ∧ 12 ≤ h then h
  else if isPM = false ∧ h = 12 then 0
  else h

theorem fixHour_eq_specHourRule (pm : Bool) (h : Nat) : fixHour pm h = specHourRule pm h := by
  unfold fixHour specHourRule
  cases pm with
  | false => simp
  | true => simp

/-- C8: whenever the direct 12-hour parse of a marker-bearing EXIF-shape
string fails and the tolerant regular expression matches, the hour
written into the result is exactly the asymmetric rule of the
specification (`specHourRule`), and in particular
`"2018:05:25 21:23:28下午"` normalizes to `"20180525212328"` and
`"2018:03:04 10:35:51上午"` to `"20180304103551"`. -/
theorem C8_tolerant_hour_rule :
    (∀ (fb : Fallback) (s : Str) (y mo d h mi sec : Nat) (pm : Bool),
      posShape s →
      (hasSub amStr s = true ∨ hasSub pmStr s = true) →
      strptime12 (cleanMarkers s) = none →
      reTolerant s = some (y, mo, d, h, mi, sec, pm) →
      validDT ⟨y, mo, d, specHourRule pm h, mi, sec⟩ →
      to_beijing_timestamp fb s = formatTS ⟨y, mo, d, specHourRule pm h, mi, sec⟩) ∧
    to_beijing_timestamp fbNone (pyStr "2018:05:25 21:23:28下午") = pyStr "20180525212328" ∧
    to_beijing_timestamp fbNone (pyStr "2018:03:04 10:35:51上午") = pyStr "20180304103551" := by
  refine ⟨?_, by decide, by decide⟩
  intro fb s y mo d h mi sec pm hshape hmk hstr hre hv
  have hmk2 : (hasSub amStr s || hasSub pmStr s) = true := by
    rcases hmk with h1 | h1 <;> simp [h1]
  rw [← fixHour_eq_specHourRule] at hv ⊢
  have hmv : mkValid y mo d (fixHour pm h) mi sec =
      some ⟨y, mo, d, fixHour pm h, mi, sec⟩ := by
    unfold mkValid
    rw [if_pos hv]
  unfold to_beijing_timestamp toBeijingBody
  rw [if_pos hshape, if_pos hmk2]
  simp only [hstr, hre, hmv]

/-- Witness for C8 at the PM fixture. -/
theorem C8_tolerant_hour_rule_witness :
    (posShape (pyStr "2018:05:25 21:23:28下午") ∧
      strptime12 (cleanMarkers (pyStr "2018:05:25 21:23:28下午")) = none ∧
      reTolerant (pyStr "2018:05:25 21:23:28下午") = some (2018, 5, 25, 21, 23, 28, true) ∧
      validDT ⟨2018, 5, 25, specHourRule true 21, 23, 28⟩) ∧
    to_beijing_timestamp fbNone (pyStr "2018:05:25 21:23:28下午") =
      formatTS ⟨2018, 5, 25, specHourRule true 21, 23, 28⟩ :=
  ⟨⟨by decide, by decide, by decide, by decide⟩,
   C8_tolerant_hour_rule.1 fbNone (pyStr "2018:05:25 21:23:28下午") 2018 5 25 21 23 28 true
     (by decide) (Or.inr (by decide)) (by decide) (by decide) (by decide)⟩

/-- A metadata oracle with no tags at all (every read failed or was
absent). -/
def oNone : MetaOracle :=
  ⟨fun _ => none, fun _ => none, fun _ => ⟨2020, 1, 1, 0, 0, 0⟩⟩

/-- C5: when no embedded time tag is found, the substituted value is the
mtime formatted `%Y%m%d%H%M%S`; that 14-digit string passes through the
Timestamp Normalizer unchanged (its EXIF and epoch shapes do not match,
and the general parser reads `YYYYMMDDHHMMSS` back to the same naive
datetime), so the timestamp field of the composed canonical name equals
the formatted mtime string and is never `"ERROR"`. -/
theorem C5_mtime_canonical (o : MetaOracle) (fb : Fallback) (f : PFile) (t0 : DT)
    (hv : validDT t0)
    (hraw : o.rawTime f = none)
    (hmt : o.mtimeDT f = t0)
    (hfb : fb (formatTS t0) = some (t0, none))
    (hnc : ¬((pySplit '_' f.stem).length = 3 ∧ is14Digits (pySplit '_' f.stem).headI = true)) :
    to_beijing_timestamp fb (extractTime o f) = formatTS t0 ∧
    formatTS t0 ≠ ERRORstr ∧
    (rename o fb f).stem =
      formatTS t0 ++ '_' :: modelToken (extractModel o f) ++ '_' :: stemToken f.stem := by
  have hext : extractTime o f = formatTS t0 := by
    unfold extractTime
    rw [hraw, hmt]
  have h14 := formatTS_len t0 hv
  have hnp : ¬ posShape (formatTS t0) := by
    intro hp
    have := hp.1
    omega
  have hgf : generalFallback fb (formatTS t0) = Except.ok (formatTS t0) := by
    unfold generalFallback
    rw [hfb]
  have hb : toBeijingBody fb (formatTS t0) = Except.ok (formatTS t0) := by
    unfold toBeijingBody
    rw [if_neg hnp]
    unfold epochShape
    split
    · rw [if_neg (by omega), if_neg (by omega)]
      exact hgf
    · exact hgf
  have hnorm : to_beijing_timestamp fb (formatTS t0) = formatTS t0 := by
    unfold to_beijing_timestamp
    rw [hb]
  refine ⟨by rw [hext, hnorm], formatTS_ne_error t0 hv, ?_⟩
  unfold rename
  rw [if_neg hnc, hext, hnorm]

/-- A fallback that parses exactly the 14-digit string
`"20200506070809"` the way `dateutil` reads `YYYYMMDDHHMMSS`. -/
def fbC5 : Fallback := fun s =>
  if s = pyStr "20200506070809" then some (⟨2020, 5, 6, 7, 8, 9⟩, none) else none

/-- Witness for C5 at a file named "x.jpg" with mtime 2020-05-06
07:08:09. -/
theorem C5_mtime_canonical_witness :
    (validDT ⟨2020, 5, 6, 7, 8, 9⟩ ∧
      oNone.rawTime ⟨pyStr "w", pyStr "x", pyStr ".jpg"⟩ = none ∧
      fbC5 (formatTS ⟨2020, 5, 6, 7, 8, 9⟩) = some (⟨2020, 5, 6, 7, 8, 9⟩, none)) ∧
    to_beijing_timestamp fbC5
        (extractTime ⟨fun _ => none, fun _ => none, fun _ => ⟨2020, 5, 6, 7, 8, 9⟩⟩
          ⟨pyStr "w", pyStr "x", pyStr ".jpg"⟩) =
      formatTS ⟨2020, 5, 6, 7, 8, 9⟩ :=
  ⟨⟨by decide, rfl, by decide⟩,
   (C5_mtime_canonical ⟨fun _ => none, fun _ => none, fun _ => ⟨2020, 5, 6, 7, 8, 9⟩⟩ fbC5
     ⟨pyStr "w", pyStr "x", pyStr ".jpg"⟩ ⟨2020, 5, 6, 7, 8, 9⟩ (by decide) rfl rfl (by decide)
     (by decide)).1⟩

/-- C7: `rename` is idempotent on already-canonical names: if the stem
splits into exactly three underscore-separated fields and the first is
exactly 14 digits, the file is returned unchanged, and hence applying
`rename` twice equals applying it once on such files. -/
theorem C7_rename_idempotent (o : MetaOracle) (fb : Fallback) (f : PFile)
    (h3 : (pySplit '_' f.stem).length = 3)
    (h14 : is14Digits (pySplit '_' f.stem).headI = true) :
    rename o fb f = f ∧ rename o fb (rename o fb f) = rename o fb f := by
  have h1 : rename o fb f = f := by
    unfold rename
    rw [if_pos ⟨h3, h14⟩]
  refine ⟨h1, ?_⟩
  rw [h1]
  exact h1

/-- Witness for C7 at the canonical name "20200101000000_M_x.jpg". -/
theorem C7_rename_idempotent_witness :
    ((pySplit '_' (pyStr "20200101000000_M_x")).length = 3 ∧
      is14Digits (pySplit '_' (pyStr "20200101000000_M_x")).headI = true) ∧
    rename oNone fbNone ⟨pyStr "w", pyStr "20200101000000_M_x", pyStr ".jpg"⟩ =
      ⟨pyStr "w", pyStr "20200101000000_M_x", pyStr ".jpg"⟩ :=
  ⟨⟨by decide, by decide⟩,
   (C7_rename_idempotent oNone fbNone ⟨pyStr "w", pyStr "20200101000000_M_x", pyStr ".jpg"⟩
     (by decide) (by decide)).1⟩

theorem pyReplaceChar_ne (a b : Char) (hab : b ≠ a) (s : Str) (c : Char)
    (hc : c ∈ pyReplaceChar a b s) : c ≠ a := by
  intro he
  unfold pyReplaceChar at hc
  rw [List.mem_map] at hc
  obtain ⟨x, _, hx⟩ := hc
  by_cases h : x = a
  · rw [if_pos h] at hx
    exact hab (hx.trans he)
  · rw [if_neg h] at hx
    exact h (hx.trans he)

theorem pyReplaceChar_mem (a b : Char) (s : Str) (c : Char)
    (hc : c ∈ pyReplaceChar a b s) : c = b ∨ c ∈ s := by
  unfold pyReplaceChar at hc
  rw [List.mem_map] at hc
  obtain ⟨x, hxs, hx⟩ := hc
  by_cases h : x = a
  · rw [if_pos h] at hx
    exact Or.inl hx.symm
  · rw [if_neg h] at hx
    rw [← hx]
    exact Or.inr hxs

/-- C3 counterexample: an underscore in the raw device model survives
into the composed name — with model tag `"a_b"` the model token still
contains `'_'`, and the composed stem splits into four fields instead of
three, breaking the 3-way round trip. -/
theorem C3_cex :
    '_' ∈ modelToken (pyStr "a_b") ∧
    (pySplit '_'
      (rename
        ⟨fun _ => some (pyStr "2024:12:13 20:28:39"), fun _ => some (pyStr "a_b"),
         fun _ => ⟨2020, 1, 1, 0, 0, 0⟩⟩
        fbNone ⟨pyStr "w", pyStr "x", pyStr ".jpg"⟩).stem).length = 4 :=
  ⟨by decide, by decide⟩

/-- C3 amended: in the composed canonical name the original-stem token
contains neither spaces nor underscores (both are replaced by hyphens),
but the model token only has its *spaces* replaced — underscores in the
raw model string are preserved. -/
theorem C3_amended (model stem : Str) :
    (∀ c ∈ modelToken model, c ≠ ' ') ∧
    (∀ c ∈ stemToken stem, c ≠ ' ' ∧ c ≠ '_') ∧
    modelToken (pyStr "a_b") = pyStr "a_b" := by
  refine ⟨?_, ?_, by decide⟩
  · intro c hc
    exact pyReplaceChar_ne ' ' '-' (by decide) model c hc
  · intro c hc
    constructor
    · exact pyReplaceChar_ne ' ' '-' (by decide) _ c hc
    · rcases pyReplaceChar_mem ' ' '-' _ c hc with h1 | h1
      · rw [h1]
        decide
      · exact pyReplaceChar_ne '_' '-' (by decide) stem c h1

/-! Filesystem-move membership. -/

theorem mem_fsMove (p src dst : Str) (fs : List Str) :
    p ∈ fsMove src dst fs ↔ p = dst ∨ (p ∈ fs ∧ p ≠ src ∧ p ≠ dst) := by
  unfold fsMove
  simp only [List.mem_cons, List.mem_filter, decide_eq_true_eq]

theorem jp_right_injective (a : Str) {x y : Str} (h : jp a x = jp a y) : x = y := by
  unfold jp at h
  have h2 := List.append_cancel_left h
  injection h2

/-- An injected failure predicate that never fires. -/
def failsNone : PFile → Bool := fun _ => false

/-- C1 counterexample: a file whose model is `UNKNOWN` and whose
computed archive destination already exists is sent to the collision
branch (outcome `duplicated`), not to the snapshot area: the collision
check runs first, so UNKNOWN routing is *not* decided before it. -/
theorem C1_cex :
    pySplit '_' (rename oNone fbNone
        ⟨pyStr "R/work", pyStr "20200101000000_UNKNOWN_x", pyStr ".jpg"⟩).stem =
      [pyStr "20200101000000", unknownStr, pyStr "x"] ∧
    (processOne (pyStr "R") true failsNone oNone fbNone
        [pyStr "R/archive/202001/p/20200101000000_UNKNOWN_x.jpg"]
        ⟨pyStr "R/work", pyStr "20200101000000_UNKNOWN_x", pyStr ".jpg"⟩).2 =
      Outcome.duplicated ∧
    snapPath (pyStr "R")
        (rename oNone fbNone
          ⟨pyStr "R/work", pyStr "20200101000000_UNKNOWN_x", pyStr ".jpg"⟩).name ∉
      (processOne (pyStr "R") true failsNone oNone fbNone
        [pyStr "R/archive/202001/p/20200101000000_UNKNOWN_x.jpg"]
        ⟨pyStr "R/work", pyStr "20200101000000_UNKNOWN_x", pyStr ".jpg"⟩).1 :=
  ⟨by decide, by decide, by decide⟩

/-- C1 amended: an UNKNOWN-model file is routed to the snapshot area
(`snapshot/{canonical-name}`) only when its computed archive destination
does *not* already exist — the collision check is performed first and
takes precedence over the snapshot branch. -/
theorem C1_amended (root : Str) (hd : Bool) (fails : PFile → Bool) (o : MetaOracle)
    (fb : Fallback) (fs : List Str) (fp : PFile) (ts fn : Str)
    (hf : fails fp = false)
    (hsplit : pySplit '_' (rename o fb fp).stem = [ts, unknownStr, fn])
    (hnex : destPath root (rename o fb fp) ts ∉ fs) :
    processOne root hd fails o fb fs fp =
      (fsMove fp.path (snapPath root (rename o fb fp).name) fs, Outcome.snapshotted) := by
  have hf2 : ¬ (fails fp = true) := by rw [hf]; simp
  unfold processOne
  rw [if_neg hf2]
  simp only [hsplit]
  rw [if_neg hnex, if_pos trivial]

/-- Witness for C1 (amended): the same UNKNOWN-model file with an empty
archive is snapshotted. -/
theorem C1_amended_witness :
    (failsNone ⟨pyStr "R/work", pyStr "20200101000000_UNKNOWN_x", pyStr ".jpg"⟩ = false ∧
      pySplit '_' (rename oNone fbNone
          ⟨pyStr "R/work", pyStr "20200101000000_UNKNOWN_x", pyStr ".jpg"⟩).stem =
        [pyStr "20200101000000", unknownStr, pyStr "x"]) ∧
    processOne (pyStr "R") true failsNone oNone fbNone []
        ⟨pyStr "R/work", pyStr "20200101000000_UNKNOWN_x", pyStr ".jpg"⟩ =
      (fsMove
        (PFile.path ⟨pyStr "R/work", pyStr "20200101000000_UNKNOWN_x", pyStr ".jpg"⟩)
        (snapPath (pyStr "R")
          (rename oNone fbNone
            ⟨pyStr "R/work", pyStr "20200101000000_UNKNOWN_x", pyStr ".jpg"⟩).name)
        [], Outcome.snapshotted) :=
  ⟨⟨by decide, by decide⟩,
   C1_amended (pyStr "R") true failsNone oNone fbNone []
     ⟨pyStr "R/work", pyStr "20200101000000_UNKNOWN_x", pyStr ".jpg"⟩
     (pyStr "20200101000000") (pyStr "x") (by decide) (by decide) (by decide)⟩

/-- C2 counterexample: two distinct source files with the same canonical
name — an archived occupant and an incoming file that is already
canonically named — collide; both duplicate-area targets coincide, the
occupant is moved there and then silently overwritten by the incoming
rename, so only one file survives (and not under distinct names). -/
theorem C2_cex :
    (processOne (pyStr "R") true failsNone oNone fbNone
        [pyStr "R/archive/202001/p/20200101000000_M_x.jpg"]
        ⟨pyStr "R/work", pyStr "20200101000000_M_x", pyStr ".jpg"⟩).2 = Outcome.duplicated ∧
    (processOne (pyStr "R") true failsNone oNone fbNone
        [pyStr "R/archive/202001/p/20200101000000_M_x.jpg"]
        ⟨pyStr "R/work", pyStr "20200101000000_M_x", pyStr ".jpg"⟩).1 =
      [pyStr "R/duplicates/20200101000000_M_x.jpg"] :=
  ⟨by decide, by decide⟩

/-- C2 amended: in the collision branch with duplicate handling on, the
existing occupant moves to the duplicates area under the canonical name
and the incoming file moves there under its *original* filename; when
the incoming file's original name differs from the canonical name (and
the incoming path is not itself the first duplicate target), both files
survive in the duplicates area under distinct names. -/
theorem C2_amended (root : Str) (fails : PFile → Bool) (o : MetaOracle) (fb : Fallback)
    (fs : List Str) (fp : PFile) (ts model fn : Str)
    (hf : fails fp = false)
    (hsplit : pySplit '_' (rename o fb fp).stem = [ts, model, fn])
    (hex : destPath root (rename o fb fp) ts ∈ fs)
    (hname : fp.name ≠ (rename o fb fp).name)
    (hfp1 : fp.path ≠ dupPath root (rename o fb fp).name) :
    processOne root true fails o fb fs fp =
      (fsMove fp.path (dupPath root fp.name)
        (fsMove (destPath root (rename o fb fp) ts) (dupPath root (rename o fb fp).name) fs),
       Outcome.duplicated) ∧
    dupPath root (rename o fb fp).name ∈ (processOne root true fails o fb fs fp).1 ∧
    dupPath root fp.name ∈ (processOne root true fails o fb fs fp).1 ∧
    dupPath root (rename o fb fp).name ≠ dupPath root fp.name := by
  have hf2 : ¬ (fails fp = true) := by rw [hf]; simp
  have heq : processOne root true fails o fb fs fp =
      (fsMove fp.path (dupPath root fp.name)
        (fsMove (destPath root (rename o fb fp) ts) (dupPath root (rename o fb fp).name) fs),
       Outcome.duplicated) := by
    unfold processOne
    rw [if_neg hf2]
    simp only [hsplit]
    rw [if_pos hex, if_pos trivial]
  have hdupne : dupPath root (rename o fb fp).name ≠ dupPath root fp.name := by
    intro he
    exact hname (jp_right_injective _ he).symm
  refine ⟨heq, ?_, ?_, hdupne⟩
  · rw [heq]
    show dupPath root (rename o fb fp).name ∈
      fsMove fp.path (dupPath root fp.name)
        (fsMove (destPath root (rename o fb fp) ts) (dupPath root (rename o fb fp).name) fs)
    rw [mem_fsMove]
    right
    refine ⟨?_, fun hc => hfp1 hc.symm, hdupne⟩
    rw [mem_fsMove]
    left
    rfl
  · rw [heq]
    show dupPath root fp.name ∈
      fsMove fp.path (dupPath root fp.name)
        (fsMove (destPath root (rename o fb fp) ts) (dupPath root (rename o fb fp).name) fs)
    rw [mem_fsMove]
    left
    rfl

/-- Witness for C2 (amended): occupant "…_M_x.jpg" in the archive versus
the incoming non-canonical "photo.jpg" with the same canonical name. -/
theorem C2_amended_witness :
    (failsNone ⟨pyStr "R/work", pyStr "photo", pyStr ".jpg"⟩ = false ∧
      PFile.name ⟨pyStr "R/work", pyStr "photo", pyStr ".jpg"⟩ ≠
        (rename
          ⟨fun _ => some (pyStr "2020:01:01 00:00:00"), fun _ => some (pyStr "M"),
           fun _ => ⟨2020, 1, 1, 0, 0, 0⟩⟩ fbNone
          ⟨pyStr "R/work", pyStr "photo", pyStr ".jpg"⟩).name) ∧
    dupPath (pyStr "R")
        (rename
          ⟨fun _ => some (pyStr "2020:01:01 00:00:00"), fun _ => some (pyStr "M"),
           fun _ => ⟨2020, 1, 1, 0, 0, 0⟩⟩ fbNone
          ⟨pyStr "R/work", pyStr "photo", pyStr ".jpg"⟩).name ∈
      (processOne (pyStr "R") true failsNone
        ⟨fun _ => some (pyStr "2020:01:01 00:00:00"), fun _ => some (pyStr "M"),
         fun _ => ⟨2020, 1, 1, 0, 0, 0⟩⟩ fbNone
        [pyStr "R/archive/202001/p/20200101000000_M_photo.jpg"]
        ⟨pyStr "R/work", pyStr "photo", pyStr ".jpg"⟩).1 :=
  ⟨⟨by decide, by decide⟩,
   (C2_amended (pyStr "R") failsNone
     ⟨fun _ => some (pyStr "2020:01:01 00:00:00"), fun _ => some (pyStr "M"),
      fun _ => ⟨2020, 1, 1, 0, 0, 0⟩⟩ fbNone
     [pyStr "R/archive/202001/p/20200101000000_M_photo.jpg"]
     ⟨pyStr "R/work", pyStr "photo", pyStr ".jpg"⟩
     (pyStr "20200101000000") (pyStr "M") (pyStr "photo")
     (by decide) (by decide) (by decide) (by decide) (by decide)).2.1⟩

/-! Batch isolation. -/

theorem fitStep_addError (root : Str) (hd : Bool) (fails : PFile → Bool) (o : MetaOracle)
    (fb : Fallback) (fs : List Str) (c : Counters) (f : PFile) :
    fitStep root hd fails o fb (fs, { c with error := c.error + 1 }) f =
      ((fitStep root hd fails o fb (fs, c) f).1,
       { (fitStep root hd fails o fb (fs, c) f).2 with
           error := (fitStep root hd fails o fb (fs, c) f).2.error + 1 }) := by
  unfold fitStep
  cases hpo : (processOne root hd fails o fb fs f).2 <;> simp [stepCounters, hpo]

theorem fit_addError (root : Str) (hd : Bool) (fails : PFile → Bool) (o : MetaOracle)
    (fb : Fallback) (files : List PFile) :
    ∀ (fs : List Str) (c : Counters),
      fit root hd fails o fb files (fs, { c with error := c.error + 1 }) =
        ((fit root hd fails o fb files (fs, c)).1,
         { (fit root hd fails o fb files (fs, c)).2 with
             error := (fit root hd fails o fb files (fs, c)).2.error + 1 }) := by
  induction files with
  | nil => intro fs c; rfl
  | cons f r ih =>
    intro fs c
    have h1 : fit root hd fails o fb (f :: r) (fs, { c with error := c.error + 1 }) =
        fit root hd fails o fb r
          (fitStep root hd fails o fb (fs, { c with error := c.error + 1 }) f) := rfl
    have h2 : fit root hd fails o fb (f :: r) (fs, c) =
        fit root hd fails o fb r (fitStep root hd fails o fb (fs, c) f) := rfl
    rw [h1, h2, fitStep_addError]
    have h3 := ih (fitStep root hd fails o fb (fs, c) f).1
      (fitStep root hd fails o fb (fs, c) f).2
    simpa using h3

/-- C10: batch isolation of the `fit` loop.  A file whose processing
raises is caught, increments exactly the error counter, and does not
abort the batch: running the batch with a failing file `e` anywhere in
the list produces exactly the filesystem and counters of the batch
without `e`, plus one on the error counter — so the other files are
processed exactly as they would be without the failure. -/
theorem C10_batch_isolation (root : Str) (hd : Bool) (fails : PFile → Bool) (o : MetaOracle)
    (fb : Fallback) (l1 l2 : List PFile) (e : PFile) (he : fails e = true) :
    ∀ (fs : List Str) (c : Counters),
      fit root hd fails o fb (l1 ++ e :: l2) (fs, c) =
        ((fit root hd fails o fb (l1 ++ l2) (fs, c)).1,
         { (fit root hd fails o fb (l1 ++ l2) (fs, c)).2 with
             error := (fit root hd fails o fb (l1 ++ l2) (fs, c)).2.error + 1 }) := by
  induction l1 with
  | nil =>
    intro fs c
    have hstep : fitStep root hd fails o fb (fs, c) e =
        (fs, { c with error := c.error + 1 }) := by
      unfold fitStep processOne
      rw [if_pos he]
      rfl
    have h1 : fit root hd fails o fb ([] ++ e :: l2) (fs, c) =
        fit root hd fails o fb l2 (fitStep root hd fails o fb (fs, c) e) := rfl
    rw [h1, hstep]
    have h2 : fit root hd fails o fb ([] ++ l2) (fs, c) = fit root hd fails o fb l2 (fs, c) :=
      rfl
    rw [h2]
    exact fit_addError root hd fails o fb l2 fs c
  | cons f r ih =>
    intro fs c
    have h1 : fit root hd fails o fb ((f :: r) ++ e :: l2) (fs, c) =
        fit root hd fails o fb (r ++ e :: l2) (fitStep root hd fails o fb (fs, c) f) := rfl
    have h2 : fit root hd fails o fb ((f :: r) ++ l2) (fs, c) =
        fit root hd fails o fb (r ++ l2) (fitStep root hd fails o fb (fs, c) f) := rfl
    rw [h1, h2]
    have h3 := ih (fitStep root hd fails o fb (fs, c) f).1
      (fitStep root hd fails o fb (fs, c) f).2
    simpa using h3

/-- The forced failure of the batch-isolation scenario: exactly the file
with stem "bad" raises. -/
def failsBad : PFile → Bool := fun f => decide (f.stem = pyStr "bad")

/-- Witness for C10: a two-file batch in which the second file fails. -/
theorem C10_batch_isolation_witness :
    failsBad ⟨pyStr "R/work", pyStr "bad", pyStr ".jpg"⟩ = true ∧
    fit (pyStr "R") true failsBad oNone fbNone
        ([⟨pyStr "R/work", pyStr "20200101000000_M_x", pyStr ".jpg"⟩] ++
          ⟨pyStr "R/work", pyStr "bad", pyStr ".jpg"⟩ :: []) ([], ⟨0, 0, 0, 0⟩) =
      ((fit (pyStr "R") true failsBad oNone fbNone
          ([⟨pyStr "R/work", pyStr "20200101000000_M_x", pyStr ".jpg"⟩] ++ [])
          ([], ⟨0, 0, 0, 0⟩)).1,
       { (fit (pyStr "R") true failsBad oNone fbNone
            ([⟨pyStr "R/work", pyStr "20200101000000_M_x", pyStr ".jpg"⟩] ++ [])
            ([], ⟨0, 0, 0, 0⟩)).2 with
           error := (fit (pyStr "R") true failsBad oNone fbNone
              ([⟨pyStr "R/work", pyStr "20200101000000_M_x", pyStr ".jpg"⟩] ++ [])
              ([], ⟨0, 0, 0, 0⟩)).2.error + 1 }) :=
  ⟨by decide,
   C10_batch_isolation (pyStr "R") true failsBad oNone fbNone
     [⟨pyStr "R/work", pyStr "20200101000000_M_x", pyStr ".jpg"⟩] []
     ⟨pyStr "R/work", pyStr "bad", pyStr ".jpg"⟩ (by decide) [] ⟨0, 0, 0, 0⟩⟩

/-- Witness for C3 (amended) at model "a b" and stem "x_y z". -/
theorem C3_amended_witness :
    ('-' ∈ modelToken (pyStr "a b") ∧ '-' ≠ ' ') ∧
    ('-' ∈ stemToken (pyStr "x_y z") ∧ '-' ≠ ' ' ∧ '-' ≠ '_') :=
  ⟨⟨by decide, (C3_amended (pyStr "a b") (pyStr "x_y z")).1 '-' (by decide)⟩,
   ⟨by decide, (C3_amended (pyStr "a b") (pyStr "x_y z")).2.1 '-' (by decide)⟩⟩
